import Mathlib

/-!
Verification of the email-resolution core in `src/sentry/auth/email.py`.

The Python module resolves an email address to a single active user.
`resolve_email_to_user` fetches the candidate `UserEmail` rows (an external
Candidate Source, passed here as a parameter) and, when more than one
candidate exists, runs `_EmailResolver.resolve`: an ordered pipeline of three
narrowing steps (`IsVerified`, `HasOrgMembership`, `IsPrimary`).  Each step
filters the current candidate list; a step that narrows to exactly one
candidate wins (its metric fires and the user is returned), a step that
eliminates everyone is ignored (no-op rule), and if no step is conclusive an
`AmbiguousUserFromEmail` exception is raised after the `no_resolution` metric
fires.

The embedding below is a direct translation.  Side effects are made
explicit: metric increments become a returned list of counter names, raised
exceptions become the `Except.error` side of the result, and the external
organization-membership service becomes an `Oracle` parameter that may fail
(a raised exception in the service propagates out of `resolve`).
-/

namespace Sentry

/-- One `UserEmail` row: the owning user (modelled by its id), the
`is_verified` flag, and the result of `ue.is_primary()` (whether this email
is the user's primary address).  The returned `User` is modelled by
`user_id`. -/
structure UserEmail where
  user_id : Nat
  is_verified : Bool
  is_primary : Bool
  deriving DecidableEq

/-- Exceptions that can escape `_EmailResolver.resolve`: the bare
`ValueError` on an empty candidate list, `AmbiguousUserFromEmail` carrying
the email and the remaining users' ids, and a failure of the external
organization service call (the spec's `DependencyFailure`). -/
inductive ResolveExc where
  | valueError
  | ambiguousUserFromEmail (email : String) (users : List Nat)
  | dependencyFailure
  deriving DecidableEq

/-- The external Organization Membership Oracle:
`organization_service.get_member_summaries_by_ids(organization_id, user_ids)`
reduced to the set of member user ids it yields, or an error when the call
raises. -/
def Oracle : Type := Nat → List Nat → Except Unit (List Nat)

/-- The `_EmailResolver` dataclass: the email being resolved and the optional
organization context (modelled by the organization's id). -/
structure EmailResolver where
  email : String
  organization : Option Nat
  deriving DecidableEq

/-- The three `ResolutionStep` subclasses, in source order. -/
inductive Step where
  | IsVerified
  | HasOrgMembership
  | IsPrimary
  deriving DecidableEq

/-- The counter each step's `if_conclusive` hook increments. -/
def Step.metricName : Step → String
  | .IsVerified => "auth.email_resolution.by_verification"
  | .HasOrgMembership => "auth.email_resolution.by_org_membership"
  | .IsPrimary => "auth.email_resolution.by_primary_email"

/-- `step.apply(candidates)`, forced to a list as `tuple(step.apply(...))`
does.  `IsVerified` keeps verified rows; `HasOrgMembership` returns `()` when
no organization context is present and otherwise batches all candidate ids
into one oracle call and keeps the members (an oracle error propagates);
`IsPrimary` keeps rows whose email is the user's primary address. -/
def Step.apply (step : Step) (r : EmailResolver) (oracle : Oracle)
    (candidates : List UserEmail) : Except Unit (List UserEmail) :=
  match step with
  | .IsVerified => .ok (candidates.filter (fun ue => ue.is_verified))
  | .HasOrgMembership =>
    match r.organization with
    | none => .ok []
    | some orgId =>
      match oracle orgId (candidates.map (fun ue => ue.user_id)) with
      | .error e => .error e
      | .ok users_in_org =>
        .ok (candidates.filter (fun ue => users_in_org.contains ue.user_id))
  | .IsPrimary => .ok (candidates.filter (fun ue => ue.is_primary))

/-- `step.if_conclusive(candidates, choice)`: the metric increment the step
emits when it narrowed to a single candidate. -/
def Step.if_conclusive (step : Step) (_candidates : List UserEmail)
    (_choice : UserEmail) : List String :=
  [step.metricName]

/-- `self.if_inconclusive(remaining_candidates)`: the metric increment when
no step resolved to a single user. -/
def EmailResolver.if_inconclusive (_r : EmailResolver)
    (_remaining : List UserEmail) : List String :=
  ["auth.email_resolution.no_resolution"]

/-- `self.get_steps()`: the fixed step order. -/
def EmailResolver.get_steps (_r : EmailResolver) : List Step :=
  [.IsVerified, .HasOrgMembership, .IsPrimary]

/-- The `for step_cls in self.get_steps()` loop of `resolve`: apply the step;
on exactly one survivor fire `if_conclusive` and return the user; on zero
survivors keep the previous candidates (no-op rule); otherwise continue with
the narrowed list.  After the last step, `if_inconclusive` fires and
`AmbiguousUserFromEmail` is raised.  An oracle failure propagates out with no
metric. -/
def resolveLoop (r : EmailResolver) (oracle : Oracle) :
    List Step → List UserEmail → List String × Except ResolveExc Nat
  | [], candidates =>
    (r.if_inconclusive candidates,
     .error (.ambiguousUserFromEmail r.email
       (candidates.map (fun ue => ue.user_id))))
  | step :: rest, candidates =>
    match step.apply r oracle candidates with
    | .error _ => ([], .error .dependencyFailure)
    | .ok next =>
      match next with
      | [choice] => (step.if_conclusive candidates choice, .ok choice.user_id)
      | [] => resolveLoop r oracle rest candidates
      | _ => resolveLoop r oracle rest next

/-- `_EmailResolver.resolve(candidates)`: `ValueError` on an empty
collection, the sole member's user on a singleton, otherwise the step loop.
The first component collects the metric counters incremented during the
call. -/
def EmailResolver.resolve (r : EmailResolver) (oracle : Oracle)
    (candidates : List UserEmail) : List String × Except ResolveExc Nat :=
  match candidates with
  | [] => ([], .error .valueError)
  | [unique_email] => ([], .ok unique_email.user_id)
  | _ => resolveLoop r oracle (r.get_steps) candidates

/-- `resolve_email_to_user(email, organization)`: the candidate rows come
from the external Candidate Source and are passed in; an empty result returns
`None` before the resolver is entered, otherwise the resolver's answer (or
escaping exception) is returned. -/
def resolve_email_to_user (email : String) (organization : Option Nat)
    (oracle : Oracle) (candidates : List UserEmail) :
    List String × Except ResolveExc (Option Nat) :=
  if candidates.isEmpty then ([], .ok none)
  else
    match EmailResolver.resolve ⟨email, organization⟩ oracle candidates with
    | (ms, .ok u) => (ms, .ok (some u))
    | (ms, .error e) => (ms, .error e)

/-- The sequence of "current" candidate sets the step loop of `resolve`
passes through: the set at entry to each step it actually reaches, following
exactly the loop's branching (stop on a unique survivor or an oracle
failure, keep the previous set on an empty narrowing, continue with the
narrowed set otherwise), plus the final set when the loop runs out of
steps. -/
def resolveTrace (r : EmailResolver) (oracle : Oracle) :
    List Step → List UserEmail → List (List UserEmail)
  | [], candidates => [candidates]
  | step :: rest, candidates =>
    candidates ::
      (match step.apply r oracle candidates with
      | .error _ => []
      | .ok next =>
        match next with
        | [_] => []
        | [] => resolveTrace r oracle rest candidates
        | _ => resolveTrace r oracle rest next)

/-- The candidate set left after running a list of steps with the no-op rule
but with no early exit: an empty narrowing is discarded, any other narrowing
replaces the current set.  Used to phrase "the remaining narrowed
candidates" after all steps. -/
def narrowedAll (r : EmailResolver) (oracle : Oracle) :
    List Step → List UserEmail → Except Unit (List UserEmail)
  | [], candidates => .ok candidates
  | step :: rest, candidates =>
    match step.apply r oracle candidates with
    | .error e => .error e
    | .ok next =>
      if next.isEmpty then narrowedAll r oracle rest candidates
      else narrowedAll r oracle rest next

/-- Fixture: an unverified, non-primary row for user 1. -/
def ueA : UserEmail := ⟨1, false, false⟩

/-- Fixture: an unverified, non-primary row for user 2. -/
def ueB : UserEmail := ⟨2, false, false⟩

/-- Fixture: a verified, non-primary row for user 3. -/
def ueC : UserEmail := ⟨3, true, false⟩

/-- Fixture: a verified, primary row for user 4. -/
def ueD : UserEmail := ⟨4, true, true⟩

/-- Fixture: an oracle that reports no members and never fails. -/
def oracleOk : Oracle := fun _ _ => .ok []

/-- Fixture: an oracle whose call always raises. -/
def oracleFail : Oracle := fun _ _ => .error ()

/-- Fixture: a resolver with no organization context. -/
def r0 : EmailResolver := ⟨"a@b.c", none⟩

/-- Fixture: a resolver with organization 7 as context. -/
def r7 : EmailResolver := ⟨"a@b.c", some 7⟩

/-! ### Equation lemmas for the step loop and the resolver entry -/

theorem resolveLoop_cons_noop (r : EmailResolver) (oracle : Oracle) (s : Step)
    (rest : List Step) (c : List UserEmail) (h : s.apply r oracle c = .ok []) :
    resolveLoop r oracle (s :: rest) c = resolveLoop r oracle rest c := by
  simp only [resolveLoop, h]

theorem resolveLoop_cons_unique (r : EmailResolver) (oracle : Oracle) (s : Step)
    (rest : List Step) (c : List UserEmail) (choice : UserEmail)
    (h : s.apply r oracle c = .ok [choice]) :
    resolveLoop r oracle (s :: rest) c =
      (s.if_conclusive c choice, .ok choice.user_id) := by
  simp only [resolveLoop, h]

theorem resolveLoop_cons_narrow (r : EmailResolver) (oracle : Oracle) (s : Step)
    (rest : List Step) (c : List UserEmail) (a b : UserEmail) (t : List UserEmail)
    (h : s.apply r oracle c = .ok (a :: b :: t)) :
    resolveLoop r oracle (s :: rest) c = resolveLoop r oracle rest (a :: b :: t) := by
  simp only [resolveLoop, h]

theorem resolveLoop_cons_error (r : EmailResolver) (oracle : Oracle) (s : Step)
    (rest : List Step) (c : List UserEmail) (e : Unit)
    (h : s.apply r oracle c = .error e) :
    resolveLoop r oracle (s :: rest) c = ([], .error .dependencyFailure) := by
  simp only [resolveLoop, h]

theorem resolve_nil (r : EmailResolver) (oracle : Oracle) :
    r.resolve oracle [] = ([], .error .valueError) := rfl

theorem resolve_singleton (r : EmailResolver) (oracle : Oracle) (ue : UserEmail) :
    r.resolve oracle [ue] = ([], .ok ue.user_id) := rfl

theorem resolve_cons_cons (r : EmailResolver) (oracle : Oracle) (a b : UserEmail)
    (t : List UserEmail) :
    r.resolve oracle (a :: b :: t) =
      resolveLoop r oracle (r.get_steps) (a :: b :: t) := rfl

/-! ### Every step narrows by filtering -/

theorem apply_ok_sublist (s : Step) (r : EmailResolver) (oracle : Oracle)
    (c next : List UserEmail) (h : s.apply r oracle c = .ok next) :
    next.Sublist c := by
  cases s with
  | IsVerified =>
    simp only [Step.apply, Except.ok.injEq] at h
    subst h
    exact List.filter_sublist _
  | HasOrgMembership =>
    cases horg : r.organization with
    | none =>
      simp only [Step.apply, horg, Except.ok.injEq] at h
      subst h
      exact List.nil_sublist _
    | some orgId =>
      cases hor : oracle orgId (c.map fun ue => ue.user_id) with
      | error e => simp [Step.apply, horg, hor] at h
      | ok users_in_org =>
        simp only [Step.apply, horg, hor, Except.ok.injEq] at h
        subst h
        exact List.filter_sublist _
  | IsPrimary =>
    simp only [Step.apply, Except.ok.injEq] at h
    subst h
    exact List.filter_sublist _

theorem narrowedAll_length_le (r : EmailResolver) (oracle : Oracle) :
    ∀ (steps : List Step) (c final : List UserEmail),
    narrowedAll r oracle steps c = .ok final → final.length ≤ c.length := by
  intro steps
  induction steps with
  | nil =>
    intro c final h
    simp only [narrowedAll, Except.ok.injEq] at h
    subst h
    exact Nat.le_refl _
  | cons s rest ih =>
    intro c final h
    cases ha : s.apply r oracle c with
    | error e => simp [narrowedAll, ha] at h
    | ok next =>
      simp only [narrowedAll, ha] at h
      by_cases hne : next.isEmpty
      · rw [if_pos hne] at h
        exact ih c final h
      · rw [if_neg hne] at h
        exact Nat.le_trans (ih next final h)
          (apply_ok_sublist s r oracle c next ha).length_le

/-! ### The loop reaches the inconclusive exit exactly on the narrowed set -/

theorem resolveLoop_of_narrowedAll (r : EmailResolver) (oracle : Oracle) :
    ∀ (steps : List Step) (c final : List UserEmail),
    narrowedAll r oracle steps c = .ok final → 2 ≤ final.length →
    resolveLoop r oracle steps c =
      (r.if_inconclusive final,
       .error (.ambiguousUserFromEmail r.email (final.map fun ue => ue.user_id))) := by
  intro steps
  induction steps with
  | nil =>
    intro c final h _
    simp only [narrowedAll, Except.ok.injEq] at h
    subst h
    rfl
  | cons s rest ih =>
    intro c final h hlen
    cases ha : s.apply r oracle c with
    | error e => simp [narrowedAll, ha] at h
    | ok next =>
      simp only [narrowedAll, ha] at h
      by_cases hne : next.isEmpty
      · rw [if_pos hne] at h
        rw [resolveLoop_cons_noop r oracle s rest c
          (by rw [ha, List.isEmpty_iff.mp hne])]
        exact ih c final h hlen
      · rw [if_neg hne] at h
        have h2 : 2 ≤ next.length :=
          Nat.le_trans hlen (narrowedAll_length_le r oracle rest next final h)
        match next, h, h2 with
        | a :: b :: t, h, _ =>
          rw [resolveLoop_cons_narrow r oracle s rest c a b t ha]
          exact ih (a :: b :: t) final h hlen

/-! ### A conclusive loop answer is the user of one of the input candidates -/

theorem resolveLoop_ok_mem (r : EmailResolver) (oracle : Oracle) :
    ∀ (steps : List Step) (c : List UserEmail) (ms : List String) (u : Nat),
    resolveLoop r oracle steps c = (ms, .ok u) →
    ∃ ue, ue ∈ c ∧ ue.user_id = u := by
  intro steps
  induction steps with
  | nil =>
    intro c ms u h
    simp only [resolveLoop, Prod.mk.injEq] at h
    exact absurd h.2 (by simp)
  | cons s rest ih =>
    intro c ms u h
    cases ha : s.apply r oracle c with
    | error e =>
      rw [resolveLoop_cons_error r oracle s rest c e ha] at h
      exact absurd (congrArg Prod.snd h) (by simp)
    | ok next =>
      match hn : next with
      | [choice] =>
        rw [resolveLoop_cons_unique r oracle s rest c choice ha] at h
        have hu : choice.user_id = u := by
          have := congrArg Prod.snd h
          simpa using this
        have hmem : choice ∈ c :=
          (apply_ok_sublist s r oracle c [choice] ha).subset (by simp)
        exact ⟨choice, hmem, hu⟩
      | [] =>
        rw [resolveLoop_cons_noop r oracle s rest c ha] at h
        exact ih c ms u h
      | a :: b :: t =>
        rw [resolveLoop_cons_narrow r oracle s rest c a b t ha] at h
        obtain ⟨ue, hmem, hu⟩ := ih (a :: b :: t) ms u h
        exact ⟨ue, (apply_ok_sublist s r oracle c (a :: b :: t) ha).subset hmem, hu⟩

/-! ### Which metrics the loop can emit, tied to the outcome -/

theorem resolveLoop_metrics (r : EmailResolver) (oracle : Oracle) :
    ∀ (steps : List Step) (c : List UserEmail),
    (resolveLoop r oracle steps c = ([], .error .dependencyFailure)) ∨
    (∃ s ∈ steps, ∃ u, resolveLoop r oracle steps c = ([s.metricName], .ok u)) ∨
    (∃ us, resolveLoop r oracle steps c =
      (["auth.email_resolution.no_resolution"],
       .error (.ambiguousUserFromEmail r.email us))) := by
  intro steps
  induction steps with
  | nil =>
    intro c
    refine Or.inr (Or.inr ⟨c.map fun ue => ue.user_id, ?_⟩)
    rfl
  | cons s rest ih =>
    intro c
    cases ha : s.apply r oracle c with
    | error e =>
      exact Or.inl (resolveLoop_cons_error r oracle s rest c e ha)
    | ok next =>
      match next with
      | [choice] =>
        refine Or.inr (Or.inl ⟨s, by simp, choice.user_id, ?_⟩)
        exact resolveLoop_cons_unique r oracle s rest c choice ha
      | [] =>
        rw [resolveLoop_cons_noop r oracle s rest c ha]
        rcases ih c with h | ⟨s2, hs2, u, h⟩ | ⟨us, h⟩
        · exact Or.inl h
        · exact Or.inr (Or.inl ⟨s2, List.mem_cons_of_mem s hs2, u, h⟩)
        · exact Or.inr (Or.inr ⟨us, h⟩)
      | a :: b :: t =>
        rw [resolveLoop_cons_narrow r oracle s rest c a b t ha]
        rcases ih (a :: b :: t) with h | ⟨s2, hs2, u, h⟩ | ⟨us, h⟩
        · exact Or.inl h
        · exact Or.inr (Or.inl ⟨s2, List.mem_cons_of_mem s hs2, u, h⟩)
        · exact Or.inr (Or.inr ⟨us, h⟩)

/-! ### An ambiguous exit carries the resolver's email and a non-empty set -/

theorem resolveLoop_ambiguous_shape (r : EmailResolver) (oracle : Oracle) :
    ∀ (steps : List Step) (c : List UserEmail) (ms : List String)
      (em : String) (us : List Nat),
    c ≠ [] →
    resolveLoop r oracle steps c = (ms, .error (.ambiguousUserFromEmail em us)) →
    em = r.email ∧ us ≠ [] := by
  intro steps
  induction steps with
  | nil =>
    intro c ms em us hc h
    simp only [resolveLoop, Prod.mk.injEq] at h
    have h2 := h.2
    simp only [Except.error.injEq, ResolveExc.ambiguousUserFromEmail.injEq] at h2
    refine ⟨h2.1.symm, ?_⟩
    rw [← h2.2]
    simpa using hc
  | cons s rest ih =>
    intro c ms em us hc h
    cases ha : s.apply r oracle c with
    | error e =>
      rw [resolveLoop_cons_error r oracle s rest c e ha] at h
      exact absurd (congrArg Prod.snd h) (by simp)
    | ok next =>
      match next with
      | [choice] =>
        rw [resolveLoop_cons_unique r oracle s rest c choice ha] at h
        exact absurd (congrArg Prod.snd h) (by simp)
      | [] =>
        rw [resolveLoop_cons_noop r oracle s rest c ha] at h
        exact ih c ms em us hc h
      | a :: b :: t =>
        rw [resolveLoop_cons_narrow r oracle s rest c a b t ha] at h
        exact ih (a :: b :: t) ms em us (by simp) h

/-! ### The loop never passes through an empty current set -/

theorem resolveTrace_nonempty (r : EmailResolver) (oracle : Oracle) :
    ∀ (steps : List Step) (c : List UserEmail), c ≠ [] →
    ∀ t ∈ resolveTrace r oracle steps c, t ≠ [] := by
  intro steps
  induction steps with
  | nil =>
    intro c hc t ht
    simp only [resolveTrace, List.mem_singleton] at ht
    subst ht
    exact hc
  | cons s rest ih =>
    intro c hc t ht
    cases ha : s.apply r oracle c with
    | error e =>
      simp only [resolveTrace, ha, List.mem_cons, List.not_mem_nil, or_false] at ht
      subst ht
      exact hc
    | ok next =>
      match next with
      | [x] =>
        simp only [resolveTrace, ha, List.mem_cons, List.not_mem_nil, or_false] at ht
        subst ht
        exact hc
      | [] =>
        simp only [resolveTrace, ha, List.mem_cons] at ht
        rcases ht with rfl | ht
        · exact hc
        · exact ih c hc t ht
      | a :: b :: tl =>
        simp only [resolveTrace, ha, List.mem_cons] at ht
        rcases ht with rfl | ht
        · exact hc
        · exact ih (a :: b :: tl) (by simp) t ht

/-! ### Claims -/

/-- Claim C1: a step whose narrowing predicate eliminates all remaining
candidates is treated as a no-op — the loop continues on the unchanged
current set (and the loop's trace records the same set entering the next
step) — and consequently every current candidate set the step loop passes
through is non-empty when the loop starts on a non-empty set. -/
theorem noop_rule_keeps_candidates (r : EmailResolver) (oracle : Oracle) :
    (∀ (s : Step) (rest : List Step) (c : List UserEmail),
      s.apply r oracle c = .ok [] →
      resolveLoop r oracle (s :: rest) c = resolveLoop r oracle rest c ∧
      resolveTrace r oracle (s :: rest) c = c :: resolveTrace r oracle rest c) ∧
    (∀ (steps : List Step) (c : List UserEmail), c ≠ [] →
      ∀ t ∈ resolveTrace r oracle steps c, t ≠ []) := by
  constructor
  · intro s rest c h
    exact ⟨resolveLoop_cons_noop r oracle s rest c h, by simp [resolveTrace, h]⟩
  · exact resolveTrace_nonempty r oracle

/-- Witness for C1 at a concrete fixture: with no organization context the
membership step's predicate produces the empty set, the loop and its trace
continue on the unchanged candidate pair, and the trace of the full pipeline
never holds an empty set. -/
theorem noop_rule_keeps_candidates_witness :
    Step.HasOrgMembership.apply r0 oracleOk [ueA, ueB] = .ok [] ∧
    (resolveLoop r0 oracleOk [Step.HasOrgMembership, Step.IsPrimary] [ueA, ueB] =
       resolveLoop r0 oracleOk [Step.IsPrimary] [ueA, ueB] ∧
     resolveTrace r0 oracleOk [Step.HasOrgMembership, Step.IsPrimary] [ueA, ueB] =
       [ueA, ueB] :: resolveTrace r0 oracleOk [Step.IsPrimary] [ueA, ueB]) ∧
    ([ueA, ueB] : List UserEmail) ≠ [] :=
  ⟨rfl,
   (noop_rule_keeps_candidates r0 oracleOk).1 Step.HasOrgMembership
     [Step.IsPrimary] [ueA, ueB] rfl,
   (noop_rule_keeps_candidates r0 oracleOk).2 (r0.get_steps) [ueA, ueB]
     (by decide) [ueA, ueB] (by decide)⟩

/-- Claim C2: starting from at least two candidates, if running all three
steps with the no-op rule leaves at least two candidates, `resolve` raises
`AmbiguousUserFromEmail` carrying exactly the users of those remaining
narrowed candidates, and the only metric incremented is `no_resolution`,
once. -/
theorem ambiguous_exact_remaining (r : EmailResolver) (oracle : Oracle)
    (c final : List UserEmail) (hc : 2 ≤ c.length)
    (hn : narrowedAll r oracle (r.get_steps) c = .ok final)
    (hf : 2 ≤ final.length) :
    r.resolve oracle c =
      (["auth.email_resolution.no_resolution"],
       .error (.ambiguousUserFromEmail r.email (final.map fun ue => ue.user_id))) := by
  cases c with
  | nil => simp at hc
  | cons a t =>
    cases t with
    | nil => simp at hc
    | cons b t2 =>
      rw [resolve_cons_cons]
      exact resolveLoop_of_narrowedAll r oracle (r.get_steps) (a :: b :: t2) final hn hf

/-- Witness for C2 at a concrete fixture: two unverified, non-primary
candidates with no organization context survive all three steps, and
`resolve` ends with a single `no_resolution` metric and the ambiguity
exception carrying both users. -/
theorem ambiguous_exact_remaining_witness :
    2 ≤ ([ueA, ueB] : List UserEmail).length ∧
    narrowedAll r0 oracleOk (r0.get_steps) [ueA, ueB] = .ok [ueA, ueB] ∧
    r0.resolve oracleOk [ueA, ueB] =
      (["auth.email_resolution.no_resolution"],
       .error (.ambiguousUserFromEmail "a@b.c" [1, 2])) :=
  ⟨by decide, rfl,
   ambiguous_exact_remaining r0 oracleOk [ueA, ueB] [ueA, ueB]
     (by decide) rfl (by decide)⟩

/-- Counterexample for C3 as stated: on a concrete input where resolution is
ambiguous, the source does not return normally — `resolve` raises
`AmbiguousUserFromEmail` (the `Except.error` side of the embedding), which
propagates out of `resolve_email_to_user`. -/
theorem ambiguous_is_raised_counterexample :
    (resolve_email_to_user "a@b.c" none oracleOk [ueA, ueB]).2 =
      .error (.ambiguousUserFromEmail "a@b.c" [1, 2]) := rfl

/-- Claim C3 amended: `NoMatch` is an ordinary return value — the entry
point returns `None` exactly on an empty candidate set — but `Ambiguous` is
not: it is raised as the `AmbiguousUserFromEmail` exception, which carries
the resolved email and the non-empty list of remaining users, so callers
branch on it by catching the exception. -/
theorem nomatch_returned_ambiguous_raised (email : String)
    (organization : Option Nat) (oracle : Oracle) (c : List UserEmail) :
    ((resolve_email_to_user email organization oracle c).2 = .ok none ↔ c = []) ∧
    (∀ (em : String) (us : List Nat),
      (resolve_email_to_user email organization oracle c).2 =
        .error (.ambiguousUserFromEmail em us) →
      em = email ∧ us ≠ []) := by
  cases c with
  | nil =>
    constructor
    · simp [resolve_email_to_user]
    · intro em us h
      simp [resolve_email_to_user] at h
  | cons a t =>
    obtain ⟨ms, res, hr⟩ :
        ∃ ms res, EmailResolver.resolve ⟨email, organization⟩ oracle (a :: t) =
          (ms, res) := ⟨_, _, rfl⟩
    cases res with
    | ok u =>
      constructor
      · constructor
        · intro h
          simp [resolve_email_to_user, hr] at h
        · intro h
          simp at h
      · intro em us h
        simp [resolve_email_to_user, hr] at h
    | error e =>
      constructor
      · constructor
        · intro h
          simp [resolve_email_to_user, hr] at h
        · intro h
          simp at h
      · intro em us h
        simp only [resolve_email_to_user, List.isEmpty_cons, Bool.false_eq_true,
          if_false, hr] at h
        simp only [Except.error.injEq] at h
        subst h
        cases t with
        | nil =>
          rw [resolve_singleton] at hr
          simp at hr
        | cons b t2 =>
          rw [resolve_cons_cons] at hr
          exact resolveLoop_ambiguous_shape ⟨email, organization⟩ oracle
            ((⟨email, organization⟩ : EmailResolver).get_steps)
            (a :: b :: t2) ms em us (by simp) hr

/-- Witness for C3's amended claim at a concrete fixture: the ambiguous
resolution of two candidates surfaces as a raised exception whose payload
names the resolved email and a non-empty user list. -/
theorem nomatch_returned_ambiguous_raised_witness :
    (resolve_email_to_user "a@b.c" none oracleOk [ueA, ueB]).2 =
      .error (.ambiguousUserFromEmail "a@b.c" [1, 2]) ∧
    ("a@b.c" = "a@b.c" ∧ ([1, 2] : List Nat) ≠ []) :=
  ⟨rfl,
   (nomatch_returned_ambiguous_raised "a@b.c" none oracleOk [ueA, ueB]).2
     "a@b.c" [1, 2] rfl⟩

/-- Claim C4: on an empty candidate set the entry point returns `None`
normally — an explicit no-match outcome, with no exception and no metric —
before the resolver pipeline is ever entered. -/
theorem empty_candidates_nomatch (email : String) (organization : Option Nat)
    (oracle : Oracle) :
    resolve_email_to_user email organization oracle [] = ([], .ok none) := rfl

/-- Claim C5: a singleton candidate set resolves immediately to its sole
member's user with no metric fired, and no step runs — in particular the
result does not depend on the organization-membership oracle at all. -/
theorem singleton_resolves_immediately (r : EmailResolver)
    (oracle oracle2 : Oracle) (ue : UserEmail) :
    r.resolve oracle [ue] = ([], .ok ue.user_id) ∧
    r.resolve oracle [ue] = r.resolve oracle2 [ue] :=
  ⟨rfl, rfl⟩

/-- Claim C6: with at least two candidates of which exactly one is verified,
`resolve` returns that candidate's user via the first step and increments
only the `by_verification` counter — whatever the other candidates'
organization or primary status, and whatever the oracle does. -/
theorem unique_verified_wins (r : EmailResolver) (oracle : Oracle)
    (c : List UserEmail) (choice : UserEmail) (hc : 2 ≤ c.length)
    (hv : c.filter (fun ue => ue.is_verified) = [choice]) :
    r.resolve oracle c =
      (["auth.email_resolution.by_verification"], .ok choice.user_id) := by
  cases c with
  | nil => simp at hc
  | cons a t =>
    cases t with
    | nil => simp at hc
    | cons b t2 =>
      rw [resolve_cons_cons]
      rw [show r.get_steps =
        Step.IsVerified :: [Step.HasOrgMembership, Step.IsPrimary] from rfl]
      rw [resolveLoop_cons_unique r oracle Step.IsVerified
        [Step.HasOrgMembership, Step.IsPrimary] (a :: b :: t2) choice
        (by simp only [Step.apply, hv])]
      rfl

/-- Witness for C6 at a concrete fixture: user 3 is the only verified
candidate of two; resolution picks it with the `by_verification` counter even
though the oracle would fail if consulted. -/
theorem unique_verified_wins_witness :
    2 ≤ ([ueC, ueB] : List UserEmail).length ∧
    ([ueC, ueB] : List UserEmail).filter (fun ue => ue.is_verified) = [ueC] ∧
    r7.resolve oracleFail [ueC, ueB] =
      (["auth.email_resolution.by_verification"], .ok 3) :=
  ⟨by decide, by decide,
   unique_verified_wins r7 oracleFail [ueC, ueB] ueC (by decide) (by decide)⟩

/-- Claim C7: with no organization context the membership step's predicate
returns the empty set without consulting the oracle (the answer is the same
for any two oracles), so by the no-op rule the loop continues on the
unchanged candidate set to the next step. -/
theorem org_absent_membership_noop (r : EmailResolver)
    (horg : r.organization = none) (oracle oracle2 : Oracle)
    (c : List UserEmail) (rest : List Step) :
    Step.HasOrgMembership.apply r oracle c = .ok [] ∧
    Step.HasOrgMembership.apply r oracle c =
      Step.HasOrgMembership.apply r oracle2 c ∧
    resolveLoop r oracle (Step.HasOrgMembership :: rest) c =
      resolveLoop r oracle rest c := by
  have h1 : Step.HasOrgMembership.apply r oracle c = .ok [] := by
    simp [Step.apply, horg]
  have h2 : Step.HasOrgMembership.apply r oracle2 c = .ok [] := by
    simp [Step.apply, horg]
  exact ⟨h1, h1.trans h2.symm,
    resolveLoop_cons_noop r oracle Step.HasOrgMembership rest c h1⟩

/-- Witness for C7 at a concrete fixture: with no organization context the
membership step yields the empty set even under an always-failing oracle,
and the loop proceeds to the primary-address step on the unchanged pair. -/
theorem org_absent_membership_noop_witness :
    r0.organization = none ∧
    Step.HasOrgMembership.apply r0 oracleFail [ueA, ueB] = .ok [] ∧
    resolveLoop r0 oracleFail [Step.HasOrgMembership, Step.IsPrimary]
      [ueA, ueB] = resolveLoop r0 oracleFail [Step.IsPrimary] [ueA, ueB] :=
  ⟨rfl,
   (org_absent_membership_noop r0 rfl oracleFail oracleOk [ueA, ueB]
     [Step.IsPrimary]).1,
   (org_absent_membership_noop r0 rfl oracleFail oracleOk [ueA, ueB]
     [Step.IsPrimary]).2.2⟩

/-- Claim C8: when the batched oracle call of the membership step errors, the
step's application errors, and the loop stops there with no metric and the
dependency failure surfaced — the remaining steps never run (the result does
not mention them). -/
theorem oracle_failure_aborts (r : EmailResolver) (oracle : Oracle)
    (c : List UserEmail) (orgId : Nat) (e : Unit) (rest : List Step)
    (horg : r.organization = some orgId)
    (hfail : oracle orgId (c.map fun ue => ue.user_id) = .error e) :
    Step.HasOrgMembership.apply r oracle c = .error e ∧
    resolveLoop r oracle (Step.HasOrgMembership :: rest) c =
      ([], .error .dependencyFailure) := by
  have h1 : Step.HasOrgMembership.apply r oracle c = .error e := by
    simp [Step.apply, horg, hfail]
  exact ⟨h1, resolveLoop_cons_error r oracle Step.HasOrgMembership rest c e h1⟩

/-- Witness for C8 at a concrete fixture: with organization 7 in context and
an always-failing oracle, the membership step errors and the loop aborts with
the failure and no metric, regardless of the step that would follow. -/
theorem oracle_failure_aborts_witness :
    r7.organization = some 7 ∧
    oracleFail 7 (([ueA, ueB] : List UserEmail).map fun ue => ue.user_id) =
      .error () ∧
    Step.HasOrgMembership.apply r7 oracleFail [ueA, ueB] = .error () ∧
    resolveLoop r7 oracleFail [Step.HasOrgMembership, Step.IsPrimary]
      [ueA, ueB] = ([], .error .dependencyFailure) :=
  ⟨rfl, rfl,
   (oracle_failure_aborts r7 oracleFail [ueA, ueB] 7 () [Step.IsPrimary]
     rfl rfl).1,
   (oracle_failure_aborts r7 oracleFail [ueA, ueB] 7 () [Step.IsPrimary]
     rfl rfl).2⟩

/-- Claim C9: every step's narrowing predicate returns a sublist of its
input — a subset in the input's relative order with nothing added — and
consequently any conclusive resolution returns the user of one of the
original input candidates. -/
theorem steps_filter_unique_from_input (s : Step) (r : EmailResolver)
    (oracle : Oracle) (c next : List UserEmail) (u : Nat) :
    (s.apply r oracle c = .ok next → next.Sublist c) ∧
    ((r.resolve oracle c).2 = .ok u → ∃ ue ∈ c, ue.user_id = u) := by
  refine ⟨apply_ok_sublist s r oracle c next, ?_⟩
  intro h
  cases c with
  | nil =>
    rw [resolve_nil] at h
    simp at h
  | cons a t =>
    cases t with
    | nil =>
      rw [resolve_singleton] at h
      simp only [Except.ok.injEq] at h
      exact ⟨a, by simp, h⟩
    | cons b t2 =>
      rw [resolve_cons_cons] at h
      obtain ⟨ms, res, hr⟩ :
          ∃ ms res, resolveLoop r oracle (r.get_steps) (a :: b :: t2) =
            (ms, res) := ⟨_, _, rfl⟩
      rw [hr] at h
      simp only at h
      subst h
      obtain ⟨ue, hmem, hu⟩ :=
        resolveLoop_ok_mem r oracle (r.get_steps) (a :: b :: t2) ms u hr
      exact ⟨ue, hmem, hu⟩

/-- Witness for C9 at a concrete fixture: the verification step narrows the
pair to the sublist holding user 3's row, and the conclusive resolution's
user is indeed one of the input candidates. -/
theorem steps_filter_unique_from_input_witness :
    ([ueC] : List UserEmail).Sublist [ueC, ueB] ∧
    ∃ ue ∈ ([ueC, ueB] : List UserEmail), ue.user_id = 3 :=
  ⟨(steps_filter_unique_from_input Step.IsVerified r0 oracleOk [ueC, ueB]
      [ueC] 3).1 rfl,
   (steps_filter_unique_from_input Step.IsVerified r0 oracleOk [ueC, ueB]
      [ueC] 3).2 rfl⟩

/-- Claim C10: at most one metric counter is incremented per resolution
call — exactly one of the three step-success counters when the call resolves
conclusively from at least two candidates, exactly the `no_resolution`
counter when the loop ends ambiguous, and none at all when the input had
zero or one candidates or the oracle failed. -/
theorem metrics_at_most_one (r : EmailResolver) (oracle : Oracle)
    (c : List UserEmail) :
    (r.resolve oracle c).1.length ≤ 1 ∧
    (c.length ≤ 1 → (r.resolve oracle c).1 = []) ∧
    (∀ u, (r.resolve oracle c).2 = .ok u → 2 ≤ c.length →
      ((r.resolve oracle c).1 = ["auth.email_resolution.by_verification"] ∨
       (r.resolve oracle c).1 = ["auth.email_resolution.by_org_membership"] ∨
       (r.resolve oracle c).1 = ["auth.email_resolution.by_primary_email"])) ∧
    (∀ (em : String) (us : List Nat),
      (r.resolve oracle c).2 = .error (.ambiguousUserFromEmail em us) →
      (r.resolve oracle c).1 = ["auth.email_resolution.no_resolution"]) ∧
    ((r.resolve oracle c).2 = .error .dependencyFailure →
      (r.resolve oracle c).1 = []) := by
  cases c with
  | nil =>
    refine ⟨by simp [resolve_nil], fun _ => rfl, fun u h _ => ?_,
      fun em us h => ?_, fun _ => rfl⟩
    · rw [resolve_nil] at h
      simp at h
    · rw [resolve_nil] at h
      simp at h
  | cons a t =>
    cases t with
    | nil =>
      refine ⟨by simp [resolve_singleton], fun _ => rfl, fun u h hlen => ?_,
        fun em us h => ?_, fun h => ?_⟩
      · simp at hlen
      · rw [resolve_singleton] at h
        simp at h
      · rw [resolve_singleton] at h
        simp at h
    | cons b t2 =>
      have hrw : r.resolve oracle (a :: b :: t2) =
          resolveLoop r oracle (r.get_steps) (a :: b :: t2) :=
        resolve_cons_cons r oracle a b t2
      have hlen2 : ¬((a :: b :: t2).length ≤ 1) := by
        simp only [List.length_cons]
        omega
      rcases resolveLoop_metrics r oracle (r.get_steps) (a :: b :: t2) with
        hl | ⟨s, hs, u2, hl⟩ | ⟨us2, hl⟩
      · rw [hrw, hl]
        exact ⟨by simp, fun hle => absurd hle hlen2,
          fun u h _ => absurd h (by simp),
          fun em us h => absurd h (by simp), fun _ => rfl⟩
      · rw [hrw, hl]
        refine ⟨by simp, fun hle => absurd hle hlen2, fun u h _ => ?_,
          fun em us h => absurd h (by simp), fun h => absurd h (by simp)⟩
        cases s with
        | IsVerified => exact Or.inl rfl
        | HasOrgMembership => exact Or.inr (Or.inl rfl)
        | IsPrimary => exact Or.inr (Or.inr rfl)
      · rw [hrw, hl]
        exact ⟨by simp, fun hle => absurd hle hlen2,
          fun u h _ => absurd h (by simp), fun em us h => rfl,
          fun h => absurd h (by simp)⟩

/-- Witness for C10 at concrete fixtures: a singleton input fires no metric,
and an inconclusive pair fires exactly the `no_resolution` counter. -/
theorem metrics_at_most_one_witness :
    (r0.resolve oracleOk [ueA]).1 = [] ∧
    (r0.resolve oracleOk [ueA, ueB]).1 =
      ["auth.email_resolution.no_resolution"] :=
  ⟨(metrics_at_most_one r0 oracleOk [ueA]).2.1 (by decide),
   (metrics_at_most_one r0 oracleOk [ueA, ueB]).2.2.2.1 "a@b.c" [1, 2] rfl⟩

end Sentry
